import Mathlib

/-
Verification development for the pta_replicator repository.

The definitions below are a shallow embedding of the noise-injection core
(src/white_noise.py: quantize_fast, add_measurement_noise, add_jitter) and of
the location lookup in load_pulsar (pta_replicator/sim.py and src/simulate.py).
Floating point numbers are idealised as rationals (reals where a real power
10 ** x is involved), numpy arrays as lists, numpy pseudorandom draws as an
explicit stream of values threaded through the computation, and Python
exceptions as an Except value together with the state already mutated when
the exception is raised.
-/

namespace PTA

/-- Time of observation i, read from the list of TOA times (0 when the index
is out of range).  Embeds the numpy indexing times[i] used in quantize_fast. -/
def tOf (times : List ℚ) (i : ℕ) : ℚ := times.getD i 0

/-- Comparison by which np.argsort(times) orders observation indices. -/
def timeLE (times : List ℚ) (i j : ℕ) : Prop := tOf times i ≤ tOf times j

instance (times : List ℚ) : DecidableRel (timeLE times) := fun i j =>
  inferInstanceAs (Decidable (tOf times i ≤ tOf times j))

/-- The permutation isort = np.argsort(times) of quantize_fast line 21: the
indices 0..n-1 listed in ascending order of time.  (np.argsort is embedded as
a sorting permutation; tie order is irrelevant to every property proved
below.) -/
def isortOf (times : List ℚ) : List ℕ :=
  List.insertionSort (timeLE times) (List.range times.length)

/-- The greedy bucket loop of quantize_fast (white_noise.py lines 26-31).
anchor is bucket_ref[-1], the time of the observation that opened the current
bucket; cur holds the members already in the current bucket; the third
argument is the remaining part of the sorted index list.  Index i joins the
current bucket iff times[i] - bucket_ref[-1] < dt, otherwise it opens a new
bucket whose reference time is times[i]. -/
def bucketize (t : ℕ → ℚ) (dt : ℚ) : ℚ → List ℕ → List ℕ → List (ℚ × List ℕ)
  | anchor, cur, [] => [(anchor, cur)]
  | anchor, cur, i :: rest =>
    if t i - anchor < dt then bucketize t dt anchor (cur ++ [i]) rest
    else (anchor, cur) :: bucketize t dt (t i) [i] rest

/-- Bucket list from the sorted index list: the earliest observation opens the
first bucket with its own time as reference (lines 23-24), the remaining
indices are folded by the greedy loop. -/
def quantizeAux (t : ℕ → ℚ) (dt : ℚ) : List ℕ → List (ℚ × List ℕ)
  | [] => []
  | i :: rest => bucketize t dt (t i) [i] rest

/-- The buckets produced by quantize_fast on the given times with width dt:
each bucket is its reference (anchor) time paired with the original
observation indices of its members, in ascending time order. -/
def quantizeBuckets (times : List ℚ) (dt : ℚ) : List (ℚ × List ℕ) :=
  quantizeAux (tOf times) dt (isortOf times)

/-- The member index sets bucket_ind of the buckets, in bucket order. -/
def bucketMembers (times : List ℚ) (dt : ℚ) : List (List ℕ) :=
  (quantizeBuckets times dt).map Prod.snd

/-- Number of buckets (the number of columns of U, and len(t) in add_jitter). -/
def numBuckets (times : List ℚ) (dt : ℚ) : ℕ := (quantizeBuckets times dt).length

/-- Entry U[r, c] of the mapping matrix built in lines 37-39 of white_noise.py:
1 iff observation r is a member of bucket c, else 0. -/
def Umat (times : List ℚ) (dt : ℚ) (r c : ℕ) : ℚ :=
  if r ∈ (bucketMembers times dt).getD c [] then 1 else 0

theorem isort_perm (times : List ℚ) : List.Perm (isortOf times) (List.range times.length) :=
  List.perm_insertionSort _ _

theorem isort_nodup (times : List ℚ) : (isortOf times).Nodup :=
  (isort_perm times).nodup_iff.mpr (List.nodup_range _)

theorem mem_isort (times : List ℚ) (j : ℕ) : j ∈ isortOf times ↔ j < times.length := by
  rw [(isort_perm times).mem_iff, List.mem_range]

theorem isort_sorted (times : List ℚ) : (isortOf times).Pairwise (timeLE times) := by
  haveI : IsTotal ℕ (timeLE times) := ⟨fun a b => le_total (tOf times a) (tOf times b)⟩
  haveI : IsTrans ℕ (timeLE times) := ⟨fun a b c => le_trans⟩
  exact List.sorted_insertionSort _ _

theorem bucketize_flatten (t : ℕ → ℚ) (dt : ℚ) (l : List ℕ) :
    ∀ (a : ℚ) (cur : List ℕ),
      ((bucketize t dt a cur l).map Prod.snd).flatten = cur ++ l := by
  induction l with
  | nil => intro a cur; simp [bucketize]
  | cons i rest ih =>
    intro a cur
    by_cases h : t i - a < dt
    · rw [bucketize, if_pos h, ih]
      simp
    · rw [bucketize, if_neg h]
      simp [ih]

theorem quantize_flatten (times : List ℚ) (dt : ℚ) :
    (bucketMembers times dt).flatten = isortOf times := by
  unfold bucketMembers quantizeBuckets quantizeAux
  rcases h : isortOf times with _ | ⟨i, rest⟩
  · simp
  · rw [bucketize_flatten]
    rfl

theorem bucketize_ne_nil (t : ℕ → ℚ) (dt : ℚ) (l : List ℕ) :
    ∀ (a : ℚ) (cur : List ℕ), bucketize t dt a cur l ≠ [] := by
  induction l with
  | nil => intro a cur; simp [bucketize]
  | cons i rest ih =>
    intro a cur
    by_cases h : t i - a < dt
    · rw [bucketize, if_pos h]; exact ih _ _
    · rw [bucketize, if_neg h]; simp

theorem bucketize_headD_fst (t : ℕ → ℚ) (dt : ℚ) (l : List ℕ) :
    ∀ (a : ℚ) (cur : List ℕ) (d : ℚ × List ℕ),
      ((bucketize t dt a cur l).headD d).1 = a := by
  induction l with
  | nil => intro a cur d; simp [bucketize]
  | cons i rest ih =>
    intro a cur d
    by_cases h : t i - a < dt
    · rw [bucketize, if_pos h]; exact ih _ _ _
    · rw [bucketize, if_neg h]; rfl

/-- Consecutive buckets have reference times at least dt apart: a bucket is
only opened when the incoming time fails the test time - anchor < dt. -/
theorem bucketize_chain (t : ℕ → ℚ) (dt : ℚ) (l : List ℕ) :
    ∀ (a : ℚ) (cur : List ℕ),
      List.Chain' (fun b b' => dt ≤ b'.1 - b.1) (bucketize t dt a cur l) := by
  induction l with
  | nil => intro a cur; simp [bucketize]
  | cons i rest ih =>
    intro a cur
    by_cases h : t i - a < dt
    · rw [bucketize, if_pos h]; exact ih _ _
    · rw [bucketize, if_neg h]
      rw [List.chain'_cons']
      refine ⟨?_, ih _ _⟩
      intro y hy
      have hne := bucketize_ne_nil t dt rest (t i) [i]
      have hh : ((bucketize t dt (t i) [i] rest).headD (0, [])).1 = t i :=
        bucketize_headD_fst t dt rest (t i) [i] (0, [])
      rcases hb : bucketize t dt (t i) [i] rest with _ | ⟨b0, brest⟩
      · exact absurd hb hne
      · rw [hb] at hy hh
        simp only [List.head?_cons, Option.mem_def, Option.some.injEq] at hy
        simp only [List.headD_cons] at hh
        subst hy
        rw [hh]
        linarith [not_lt.mp h]

/-- Every member of a bucket entered it because its time was within dt of the
bucket reference (the anchor), so for dt > 0 every member's gap to the anchor
is < dt. -/
theorem bucketize_mem_gap (t : ℕ → ℚ) (dt : ℚ) (hdt : 0 < dt) (l : List ℕ) :
    ∀ (a : ℚ) (cur : List ℕ), (∀ j ∈ cur, t j - a < dt) →
      ∀ b ∈ bucketize t dt a cur l, ∀ j ∈ b.2, t j - b.1 < dt := by
  induction l with
  | nil =>
    intro a cur hcur b hb j hj
    simp only [bucketize, List.mem_singleton] at hb
    subst hb
    exact hcur j hj
  | cons i rest ih =>
    intro a cur hcur b hb j hj
    by_cases h : t i - a < dt
    · rw [bucketize, if_pos h] at hb
      refine ih a (cur ++ [i]) ?_ b hb j hj
      intro k hk
      rcases List.mem_append.mp hk with hk | hk
      · exact hcur k hk
      · simp only [List.mem_singleton] at hk; subst hk; exact h
    · rw [bucketize, if_neg h] at hb
      rcases List.mem_cons.mp hb with hb | hb
      · subst hb; exact hcur j hj
      · refine ih (t i) [i] ?_ b hb j hj
        intro k hk
        simp only [List.mem_singleton] at hk
        subst hk
        simpa using hdt

/-- Each produced bucket is nonempty and its reference time is the time of its
first (anchor) member. -/
theorem bucketize_anchor_head (t : ℕ → ℚ) (dt : ℚ) (l : List ℕ) :
    ∀ (a : ℚ) (cur : List ℕ), cur ≠ [] → t (cur.headD 0) = a →
      ∀ b ∈ bucketize t dt a cur l, b.2 ≠ [] ∧ t (b.2.headD 0) = b.1 := by
  induction l with
  | nil =>
    intro a cur hne hhead b hb
    simp only [bucketize, List.mem_singleton] at hb
    subst hb
    exact ⟨hne, hhead⟩
  | cons i rest ih =>
    intro a cur hne hhead b hb
    by_cases h : t i - a < dt
    · rw [bucketize, if_pos h] at hb
      refine ih a (cur ++ [i]) (by simp) ?_ b hb
      rcases cur with _ | ⟨c0, ctail⟩
      · exact absurd rfl hne
      · simpa using hhead
    · rw [bucketize, if_neg h] at hb
      rcases List.mem_cons.mp hb with hb | hb
      · subst hb; exact ⟨hne, hhead⟩
      · exact ih (t i) [i] (by simp) (by simp) b hb

/-- With dt ≤ 0 and a time-sorted remainder, every observation opens its own
bucket. -/
theorem bucketize_singletons (t : ℕ → ℚ) (dt : ℚ) (hdt : dt ≤ 0) (l : List ℕ) :
    ∀ (a : ℚ) (cur : List ℕ), (∀ j ∈ l, a ≤ t j) →
      l.Pairwise (fun i j => t i ≤ t j) →
      bucketize t dt a cur l = (a, cur) :: l.map (fun i => (t i, [i])) := by
  induction l with
  | nil => intro a cur _ _; simp [bucketize]
  | cons i rest ih =>
    intro a cur hge hsort
    have hnot : ¬ t i - a < dt := by
      have : a ≤ t i := hge i (List.mem_cons_self i rest)
      intro hlt
      linarith
    rw [bucketize, if_neg hnot]
    rw [ih (t i) [i] (fun j hj => (List.pairwise_cons.mp hsort).1 j hj)
      (List.pairwise_cons.mp hsort).2]
    simp

theorem bucketMembers_length (times : List ℚ) (dt : ℚ) :
    (bucketMembers times dt).length = numBuckets times dt := by
  simp [bucketMembers, numBuckets]

theorem quantize_anchor_head (times : List ℚ) (dt : ℚ) :
    ∀ b ∈ quantizeBuckets times dt, b.2 ≠ [] ∧ tOf times (b.2.headD 0) = b.1 := by
  unfold quantizeBuckets quantizeAux
  rcases isortOf times with _ | ⟨i, rest⟩
  · intro b hb; simp at hb
  · exact bucketize_anchor_head _ dt rest _ [i] (by simp) (by simp)

theorem quantize_chain (times : List ℚ) (dt : ℚ) :
    List.Chain' (fun b b' => dt ≤ b'.1 - b.1) (quantizeBuckets times dt) := by
  unfold quantizeBuckets quantizeAux
  rcases isortOf times with _ | ⟨i, rest⟩
  · simp
  · exact bucketize_chain _ dt rest _ [i]

theorem quantize_mem_gap (times : List ℚ) (dt : ℚ) (hdt : 0 < dt) :
    ∀ b ∈ quantizeBuckets times dt, ∀ j ∈ b.2, tOf times j - b.1 < dt := by
  unfold quantizeBuckets quantizeAux
  rcases isortOf times with _ | ⟨i, rest⟩
  · intro b hb; simp at hb
  · refine bucketize_mem_gap _ dt hdt rest _ [i] ?_
    intro j hj
    simp only [List.mem_singleton] at hj
    subst hj
    simpa using hdt

theorem members_flatten_nodup (times : List ℚ) (dt : ℚ) :
    (bucketMembers times dt).flatten.Nodup := by
  rw [quantize_flatten]
  exact isort_nodup times

theorem mem_members_lt (times : List ℚ) (dt : ℚ) :
    ∀ m ∈ bucketMembers times dt, ∀ j ∈ m, j < times.length := by
  intro m hm j hj
  have : j ∈ (bucketMembers times dt).flatten := List.mem_flatten_of_mem hm hj
  rw [quantize_flatten] at this
  exact (mem_isort times j).mp this

theorem mem_members_flatten (times : List ℚ) (dt : ℚ) (r : ℕ)
    (hr : r < times.length) :
    ∃ m ∈ bucketMembers times dt, r ∈ m := by
  have : r ∈ (bucketMembers times dt).flatten := by
    rw [quantize_flatten]
    exact (mem_isort times r).mpr hr
  exact List.mem_flatten.mp this

theorem members_getD_eq_getElem (times : List ℚ) (dt : ℚ) (c : ℕ)
    (hc : c < numBuckets times dt) :
    (bucketMembers times dt).getD c [] =
      (bucketMembers times dt).get ⟨c, (bucketMembers_length times dt).symm ▸ hc⟩ := by
  rw [List.getD_eq_getElem?_getD, List.getElem?_eq_getElem ((bucketMembers_length times dt).symm ▸ hc)]
  rfl

theorem mem_members_unique (times : List ℚ) (dt : ℚ) (r c c' : ℕ)
    (hc : c < numBuckets times dt) (hc' : c' < numBuckets times dt)
    (h1 : r ∈ (bucketMembers times dt).getD c [])
    (h2 : r ∈ (bucketMembers times dt).getD c' []) : c = c' := by
  by_contra hne
  have hdisj := (List.nodup_flatten.mp (members_flatten_nodup times dt)).2
  have hL := bucketMembers_length times dt
  rw [List.pairwise_iff_getElem] at hdisj
  rw [members_getD_eq_getElem times dt c hc] at h1
  rw [members_getD_eq_getElem times dt c' hc'] at h2
  rcases Nat.lt_or_ge c c' with hlt | hge
  · exact hdisj c c' (hL.symm ▸ hc) (hL.symm ▸ hc') hlt h1 h2
  · have hlt : c' < c := lt_of_le_of_ne hge (fun h => hne h.symm)
    exact hdisj c' c (hL.symm ▸ hc') (hL.symm ▸ hc) hlt h2 h1

theorem sum_map_range_eq {M : Type} [AddCommMonoid M] (f : ℕ → M) :
    ∀ n : ℕ, ((List.range n).map f).sum = ∑ i in Finset.range n, f i := by
  intro n
  induction n with
  | zero => simp
  | succ k ih => rw [List.range_succ, Finset.sum_range_succ, ← ih]; simp

/-- Each row of the mapping matrix U sums to exactly 1: every observation lies
in exactly one bucket. -/
theorem rowSum_eq_one (times : List ℚ) (dt : ℚ) (r : ℕ) (hr : r < times.length) :
    ((List.range (numBuckets times dt)).map (fun c => Umat times dt r c)).sum = 1 := by
  rw [sum_map_range_eq]
  obtain ⟨m, hm, hrm⟩ := mem_members_flatten times dt r hr
  obtain ⟨c0, hc0len, hc0⟩ := List.mem_iff_getElem.mp hm
  have hc0B : c0 < numBuckets times dt := bucketMembers_length times dt ▸ hc0len
  have hmem : r ∈ (bucketMembers times dt).getD c0 [] := by
    rw [members_getD_eq_getElem times dt c0 hc0B]
    simpa [hc0] using hrm
  rw [Finset.sum_eq_single_of_mem c0 (Finset.mem_range.mpr hc0B)]
  · exact if_pos hmem
  · intro b hb hbne
    refine if_neg ?_
    intro hrb
    exact hbne (mem_members_unique times dt r b c0 (Finset.mem_range.mp hb) hc0B hrb hmem)

/-- Each column of U sums to at least 1: every bucket has at least one member. -/
theorem colSum_ge_one (times : List ℚ) (dt : ℚ) (c : ℕ) (hc : c < numBuckets times dt) :
    1 ≤ ((List.range times.length).map (fun r => Umat times dt r c)).sum := by
  rw [sum_map_range_eq]
  have hlen : c < (bucketMembers times dt).length := bucketMembers_length times dt ▸ hc
  have hmem : (bucketMembers times dt).get ⟨c, hlen⟩ ∈ bucketMembers times dt :=
    List.get_mem _ _ _
  obtain ⟨b, hb, hbsnd⟩ := List.mem_map.mp hmem
  have hne : b.2 ≠ [] := (quantize_anchor_head times dt b hb).1
  rcases hx : b.2 with _ | ⟨j, jrest⟩
  · exact absurd hx hne
  have hj : j ∈ (bucketMembers times dt).getD c [] := by
    rw [members_getD_eq_getElem times dt c hc, ← hbsnd, hx]
    exact List.mem_cons_self j jrest
  have hjn : j < times.length := by
    refine mem_members_lt times dt _ hmem j ?_
    rw [← hbsnd, hx]
    exact List.mem_cons_self j jrest
  have h1 : Umat times dt j c = 1 := if_pos hj
  have key : ∀ F : ℕ → ℚ, (∀ i ∈ Finset.range times.length, 0 ≤ F i) →
      F j ≤ ∑ r in Finset.range times.length, F r := fun F hF =>
    Finset.single_le_sum hF (Finset.mem_range.mpr hjn)
  calc (1 : ℚ) = Umat times dt j c := h1.symm
    _ ≤ ∑ r in Finset.range times.length, Umat times dt r c := by
        refine key (fun r => Umat times dt r c) ?_
        intro i _
        simp only [Umat]
        split
        · norm_num
        · norm_num

/-- With dt ≤ 0 the join test times[i] - anchor < dt never succeeds on
time-sorted input, so every observation opens its own bucket. -/
theorem quantize_dtnonpos (times : List ℚ) (dt : ℚ) (hdt : dt ≤ 0) :
    quantizeBuckets times dt = (isortOf times).map (fun i => (tOf times i, [i])) := by
  unfold quantizeBuckets quantizeAux
  rcases h : isortOf times with _ | ⟨i, rest⟩
  · simp
  · have hs : (i :: rest).Pairwise (fun a b => tOf times a ≤ tOf times b) := by
      have := isort_sorted times
      rw [h] at this
      exact this.imp (fun hab => hab)
    change bucketize (tOf times) dt (tOf times i) [i] rest = _
    rw [bucketize_singletons (tOf times) dt hdt rest (tOf times i) [i]
      (fun j hj => (List.pairwise_cons.mp hs).1 j hj) (List.pairwise_cons.mp hs).2]
    simp

/-- Quantizing a single timestamp yields one bucket holding observation 0. -/
theorem quantize_single (t0 d0 : ℚ) : quantizeBuckets [t0] d0 = [(t0, [0])] := by
  have h : isortOf [t0] = [0] := by
    simp [isortOf]
  unfold quantizeBuckets quantizeAux
  rw [h]
  simp [bucketize, tOf]

theorem quantize_getD_mem (times : List ℚ) (dt : ℚ) (c : ℕ)
    (hc : c < numBuckets times dt) :
    (quantizeBuckets times dt).getD c (0, []) ∈ quantizeBuckets times dt := by
  rw [List.getD_eq_getElem?_getD, List.getElem?_eq_getElem hc]
  exact List.get_mem _ _ _

theorem members_getD_eq (times : List ℚ) (dt : ℚ) (c : ℕ)
    (hc : c < numBuckets times dt) :
    (bucketMembers times dt).getD c [] =
      ((quantizeBuckets times dt).getD c (0, [])).2 := by
  have hcL : c < (bucketMembers times dt).length := bucketMembers_length times dt ▸ hc
  rw [List.getD_eq_getElem?_getD, List.getElem?_eq_getElem hcL,
    List.getD_eq_getElem?_getD, List.getElem?_eq_getElem hc]
  simp [bucketMembers]

theorem anchors_chain_getD (times : List ℚ) (dt : ℚ) (k : ℕ)
    (hk : k + 1 < numBuckets times dt) :
    dt ≤ ((quantizeBuckets times dt).getD (k + 1) (0, [])).1
        - ((quantizeBuckets times dt).getD k (0, [])).1 := by
  have hchain := quantize_chain times dt
  rw [List.chain'_iff_get] at hchain
  have hk' : k < (quantizeBuckets times dt).length - 1 := by
    have : numBuckets times dt = (quantizeBuckets times dt).length := rfl
    omega
  have := hchain k hk'
  have hklt : k < numBuckets times dt := by omega
  rw [List.getD_eq_getElem?_getD, List.getElem?_eq_getElem hk,
    List.getD_eq_getElem?_getD, List.getElem?_eq_getElem hklt]
  simpa using this

/-- For each pair of consecutive buckets, the time gap from the last member of
the earlier bucket to the first member of the later bucket.  (This is the
quantity the contiguity sentence of the spec bounds below by dt.) -/
def lastFirstGaps (times : List ℚ) (dt : ℚ) : List ℚ :=
  (List.zip (bucketMembers times dt) (bucketMembers times dt).tail).map
    (fun p => tOf times (p.2.headD 0) - tOf times (p.1.getLastD 0))

/-- Representative flags of the buckets (quantize_fast line 35): the flag of
each bucket's first, i.e. anchor, member. -/
def aveflagsOf (times : List ℚ) (obsFlags : List String) (dt : ℚ) : List String :=
  (bucketMembers times dt).map (fun m => obsFlags.getD (m.headD 0) "")

/-- C1 (amended).  For every nonempty times sequence and dt > 0, a new
observation joins the current bucket iff its time minus the bucket's anchor is
< dt, hence: every member's gap to its bucket's anchor is < dt; each bucket's
reference time is the time of its first (anchor) member; and the gap from the
ANCHOR of bucket k (not its last member) to the first member of bucket k+1 is
at least dt. -/
theorem quantize_anchor_gap_spec (times : List ℚ) (dt : ℚ)
    (_hne : times ≠ []) (hdt : 0 < dt) :
    (∀ b ∈ quantizeBuckets times dt, ∀ j ∈ b.2, tOf times j - b.1 < dt)
    ∧ (∀ b ∈ quantizeBuckets times dt, b.2 ≠ [] ∧ b.1 = tOf times (b.2.headD 0))
    ∧ (∀ k, k + 1 < numBuckets times dt →
        dt ≤ tOf times (((bucketMembers times dt).getD (k + 1) []).headD 0)
            - ((quantizeBuckets times dt).getD k (0, [])).1) := by
  refine ⟨quantize_mem_gap times dt hdt, ?_, ?_⟩
  · intro b hb
    obtain ⟨h1, h2⟩ := quantize_anchor_head times dt b hb
    exact ⟨h1, h2.symm⟩
  · intro k hk
    have hgap := anchors_chain_getD times dt k hk
    have hmem := quantize_getD_mem times dt (k + 1) hk
    obtain ⟨_, hhead⟩ := quantize_anchor_head times dt _ hmem
    rw [members_getD_eq times dt (k + 1) hk, hhead]
    exact hgap

/-- C1 counterexample.  With times = [0, 9/10, 3/2] and dt = 1 > 0 the two
buckets are [0, 9/10] and [3/2]; the gap from the LAST member of the first
bucket (9/10) to the first member of the second (3/2) is 3/5 < dt, refuting
the claimed bound of dt on last-member-to-first-member gaps. -/
theorem quantize_lastFirstGap_counterexample :
    (0 : ℚ) < 1 ∧ ¬ (∀ g ∈ lastFirstGaps [0, 9/10, 3/2] 1, (1 : ℚ) ≤ g) := by
  decide!

theorem quantize_anchor_gap_spec_witness :
    (1 : ℚ) ≤ tOf [0, 9/10, 3/2] (((bucketMembers [0, 9/10, 3/2] 1).getD 1 []).headD 0)
      - ((quantizeBuckets [0, 9/10, 3/2] 1).getD 0 (0, [])).1 :=
  (quantize_anchor_gap_spec [0, 9/10, 3/2] 1 (by decide!) (by decide!)).2.2 0 (by decide!)

/-- C3.  For every nonempty times sequence and dt > 0: every row of U sums to
exactly 1; every column sums to at least 1; the concatenation of the bucket
member index sets is a permutation of 0..n-1 (a partition with no overlaps);
and a single observation yields exactly one bucket with U = [[1]]. -/
theorem quantize_partition_spec (times : List ℚ) (dt : ℚ)
    (_hne : times ≠ []) (_hdt : 0 < dt) :
    (∀ r, r < times.length →
      ((List.range (numBuckets times dt)).map (fun c => Umat times dt r c)).sum = 1)
    ∧ (∀ c, c < numBuckets times dt →
      1 ≤ ((List.range times.length).map (fun r => Umat times dt r c)).sum)
    ∧ List.Perm (bucketMembers times dt).flatten (List.range times.length)
    ∧ (∀ t0 : ℚ, quantizeBuckets [t0] dt = [(t0, [0])] ∧ numBuckets [t0] dt = 1
        ∧ Umat [t0] dt 0 0 = 1) := by
  refine ⟨fun r hr => rowSum_eq_one times dt r hr,
    fun c hc => colSum_ge_one times dt c hc, ?_, ?_⟩
  · rw [quantize_flatten]
    exact isort_perm times
  · intro t0
    refine ⟨quantize_single t0 dt, ?_, ?_⟩
    · simp [numBuckets, quantize_single t0 dt]
    · simp [Umat, bucketMembers, quantize_single t0 dt]

theorem quantize_partition_spec_witness :
    ((List.range (numBuckets [(5 : ℚ)] 1)).map (fun c => Umat [(5 : ℚ)] 1 0 c)).sum = 1 :=
  (quantize_partition_spec [5] 1 (by decide!) (by decide!)).1 0 (by decide!)

/-- C9.  For every nonempty times sequence and dt ≤ 0, quantize_fast places
every observation in its own singleton bucket: there are exactly N buckets,
each bucket is a singleton, and U has exactly one 1 in every row and in every
column. -/
theorem quantize_dt_nonpos_spec (times : List ℚ) (dt : ℚ)
    (_hne : times ≠ []) (hdt : dt ≤ 0) :
    numBuckets times dt = times.length
    ∧ (∀ c, c < numBuckets times dt →
        ∃ j, j < times.length ∧ (bucketMembers times dt).getD c [] = [j])
    ∧ (∀ r, r < times.length →
        ((List.range (numBuckets times dt)).map (fun c => Umat times dt r c)).sum = 1)
    ∧ (∀ c, c < numBuckets times dt →
        ((List.range times.length).map (fun r => Umat times dt r c)).sum = 1) := by
  have hQ := quantize_dtnonpos times dt hdt
  have hBn : numBuckets times dt = times.length := by
    simp [numBuckets, hQ, isortOf]
  have hsing : ∀ c, c < numBuckets times dt →
      ∃ j, j < times.length ∧ (bucketMembers times dt).getD c [] = [j] := by
    intro c hc
    have hcL : c < (bucketMembers times dt).length := bucketMembers_length times dt ▸ hc
    have hci : c < (isortOf times).length := by
      have hlen : (isortOf times).length = times.length := by
        simpa using (isort_perm times).length_eq
      rw [hlen, ← hBn]
      exact hc
    refine ⟨(isortOf times).get ⟨c, hci⟩, ?_, ?_⟩
    · exact (mem_isort times _).mp (List.get_mem _ _ _)
    · rw [List.getD_eq_getElem?_getD, List.getElem?_eq_getElem hcL]
      simp [bucketMembers, hQ]
  refine ⟨hBn, hsing, fun r hr => rowSum_eq_one times dt r hr, ?_⟩
  intro c hc
  obtain ⟨j, hjn, hjm⟩ := hsing c hc
  rw [sum_map_range_eq]
  rw [Finset.sum_eq_single_of_mem j (Finset.mem_range.mpr hjn)]
  · unfold Umat
    rw [hjm]
    simp
  · intro b hb hbj
    unfold Umat
    rw [hjm]
    simp [hbj]

theorem quantize_dt_nonpos_spec_witness :
    numBuckets [0, 9/10, (3 : ℚ)/2] 0 = 3 := by
  have h := (quantize_dt_nonpos_spec [0, 9/10, 3/2] 0 (by decide!) (by decide!)).1
  simpa using h

/-- Entry r of np.dot(U * ecorrvec, z) (white_noise.py line 155): the row of
U * ecorrvec for observation r dotted with the per-bucket draws z. -/
def jitterOffset (times : List ℚ) (dt : ℚ) (ecorrvec : List ℚ) (z : ℕ → ℚ) (r : ℕ) : ℚ :=
  ((List.range (numBuckets times dt)).map
    (fun c => Umat times dt r c * ecorrvec.getD c 0 * z c)).sum

/-- The per-observation jitter offset vector dt of add_jitter (in seconds). -/
def jitterOffsetsVec (times : List ℚ) (dt : ℚ) (ecorrvec : List ℚ) (z : ℕ → ℚ) : List ℚ :=
  (List.range times.length).map (jitterOffset times dt ecorrvec z)

/-- The scatter loop pattern of white_noise.py lines 91-95 and 149-151: for
each (flag, value) pair in order, overwrite with value every position of the
accumulator whose key flag equals flag. -/
def scatterFlags {α : Type} (flagsArr : List String) (vals : List α)
    (keyFlags : List String) (init : List α) : List α :=
  (List.zip flagsArr vals).foldl
    (fun acc p => (List.zip keyFlags acc).map (fun q => if p.1 = q.1 then p.2 else q.2))
    init

/-- The value the scatter loop leaves at a position with key flag f: the value
of the last (flag, value) pair whose flag equals f, or the initial value. -/
def selectByFlag {α : Type} (flagsArr : List String) (vals : List α)
    (init : α) (f : String) : α :=
  (List.zip flagsArr vals).foldl (fun a p => if p.1 = f then p.2 else a) init

theorem getD_map_range {β : Type} (f : ℕ → β) (n i : ℕ) (hi : i < n) (d : β) :
    ((List.range n).map f).getD i d = f i := by
  have h : i < ((List.range n).map f).length := by simpa using hi
  rw [List.getD_eq_getElem?_getD, List.getElem?_eq_getElem h]
  simp

theorem scatter_fold_getD {α : Type} (pairs : List (String × α)) (keyFlags : List String) :
    ∀ (init : List α) (dflt : α), init.length = keyFlags.length →
      ∀ c, c < keyFlags.length →
      (pairs.foldl
          (fun acc p => (List.zip keyFlags acc).map
            (fun q => if p.1 = q.1 then p.2 else q.2)) init).getD c dflt
        = pairs.foldl (fun a p => if p.1 = keyFlags.getD c "" then p.2 else a)
            (init.getD c dflt) := by
  induction pairs with
  | nil => intro init dflt _ c _; rfl
  | cons p ps ih =>
    intro init dflt hlen c hc
    have hczip : c < (List.zip keyFlags init).length := by
      simpa [List.length_zip, hlen] using hc
    have hcinit : c < init.length := by omega
    have hstep :
        ((List.zip keyFlags init).map
            (fun q => if p.1 = q.1 then p.2 else q.2)).getD c dflt
          = if p.1 = keyFlags.getD c "" then p.2 else init.getD c dflt := by
      have hcmap : c < ((List.zip keyFlags init).map
          (fun q => if p.1 = q.1 then p.2 else q.2)).length := by
        simpa [List.length_zip, hlen] using hc
      rw [List.getD_eq_getElem?_getD, List.getElem?_eq_getElem hcmap,
        List.getD_eq_getElem?_getD, List.getElem?_eq_getElem hc,
        List.getD_eq_getElem?_getD, List.getElem?_eq_getElem hcinit]
      simp
    rw [List.foldl_cons, List.foldl_cons,
      ih _ dflt (by simp [List.length_zip, hlen]) c hc]
    · rw [hstep]

theorem scatterFlags_getD {α : Type} (flagsArr : List String) (vals : List α)
    (keyFlags : List String) (init : List α) (dflt : α)
    (hlen : init.length = keyFlags.length) (c : ℕ) (hc : c < keyFlags.length) :
    (scatterFlags flagsArr vals keyFlags init).getD c dflt
      = selectByFlag flagsArr vals (init.getD c dflt) (keyFlags.getD c "") :=
  scatter_fold_getD (List.zip flagsArr vals) keyFlags init dflt hlen c hc

theorem aveflags_length (times : List ℚ) (obsFlags : List String) (dt : ℚ) :
    (aveflagsOf times obsFlags dt).length = numBuckets times dt := by
  simp [aveflagsOf, bucketMembers, numBuckets]

theorem mem_getD_members_lt (times : List ℚ) (dt : ℚ) (c r : ℕ)
    (hc : c < numBuckets times dt)
    (hr : r ∈ (bucketMembers times dt).getD c []) : r < times.length := by
  rw [members_getD_eq_getElem times dt c hc] at hr
  exact mem_members_lt times dt _ (List.get_mem _ _ _) r hr

/-- C2.  The per-observation jitter offset vector equals U (ecorr-per-bucket
pointwise-times draws): an observation r in bucket c receives offset
ecorrvec[c] * z[c], so all observations of one bucket share the single draw
z[c] scaled by that bucket's ECORR coefficient; with flags the coefficient of
bucket c is selected by matching the bucket's representative flag (the flag
of the bucket's anchor member) against the supplied flag array, positions
with no match keeping the initial 0. -/
theorem jitter_bucket_correlation_spec (times : List ℚ) (obsFlags : List String)
    (dt : ℚ) (flagsArr : List String) (vals : List ℚ) (z : ℕ → ℚ) (c r : ℕ)
    (hc : c < numBuckets times dt)
    (hr : r ∈ (bucketMembers times dt).getD c []) :
    (∀ ecorrvec : List ℚ,
      (jitterOffsetsVec times dt ecorrvec z).getD r 0 = ecorrvec.getD c 0 * z c)
    ∧ (scatterFlags flagsArr vals (aveflagsOf times obsFlags dt)
          (List.replicate (numBuckets times dt) 0)).getD c 0
        = selectByFlag flagsArr vals 0 ((aveflagsOf times obsFlags dt).getD c "")
    ∧ (aveflagsOf times obsFlags dt).getD c ""
        = obsFlags.getD (((bucketMembers times dt).getD c []).headD 0) "" := by
  have hrn : r < times.length := mem_getD_members_lt times dt c r hc hr
  refine ⟨?_, ?_, ?_⟩
  · intro ecorrvec
    unfold jitterOffsetsVec
    rw [getD_map_range _ _ r hrn]
    unfold jitterOffset
    rw [sum_map_range_eq]
    rw [Finset.sum_eq_single_of_mem c (Finset.mem_range.mpr hc)]
    · unfold Umat
      rw [if_pos hr, one_mul]
    · intro b hb hbne
      have hnm : r ∉ (bucketMembers times dt).getD b [] := fun hrb =>
        hbne (mem_members_unique times dt r b c (Finset.mem_range.mp hb) hc hrb hr)
      unfold Umat
      rw [if_neg hnm, zero_mul, zero_mul]
  · have hzero : (List.replicate (numBuckets times dt) (0 : ℚ)).getD c 0 = 0 := by
      rw [List.getD_eq_getElem?_getD]
      exact List.getElem?_getD_replicate_default_eq _ _ _
    have hB := scatterFlags_getD flagsArr vals (aveflagsOf times obsFlags dt)
      (List.replicate (numBuckets times dt) 0) 0
      (by simp [aveflags_length]) c (by rw [aveflags_length]; exact hc)
    rw [hzero] at hB
    exact hB
  · have hcM : c < (bucketMembers times dt).length := bucketMembers_length times dt ▸ hc
    have hcA : c < (aveflagsOf times obsFlags dt).length := by
      rw [aveflags_length]
      exact hc
    have h1 : (aveflagsOf times obsFlags dt).getD c ""
        = obsFlags.getD (((bucketMembers times dt).get ⟨c, hcM⟩).headD 0) "" := by
      rw [List.getD_eq_getElem?_getD, List.getElem?_eq_getElem hcA]
      simp [aveflagsOf]
    have h2 : (bucketMembers times dt).getD c []
        = (bucketMembers times dt).get ⟨c, hcM⟩ :=
      members_getD_eq_getElem times dt c hc
    rw [h1, h2]

theorem jitter_bucket_correlation_spec_witness :
    (jitterOffsetsVec [0, 1, (2 : ℚ)] 10 [5] (fun _ => 3)).getD 1 0 = 5 * 3 := by
  have h := (jitter_bucket_correlation_spec [0, 1, 2] ["A", "A", "A"] 10 ["A"] [7]
    (fun _ => 3) 0 1 (by decide!) (by decide!)).1 [5]
  simpa using h

/-- The Python exception kinds raised by the modelled code paths.  valueError
is the kind the spec calls ConfigurationError; noLocError is the explicit
AttributeError raised with the message about missing pulsar location, while
attrError is an AttributeError from a failed attribute access. -/
inductive PyError where
  | valueError
  | typeError
  | indexError
  | attrError
  | noLocError
deriving DecidableEq

/-- A Python argument that is either a scalar or an array, as distinguished by
np.isscalar in the validation code. -/
inductive Param (α : Type) where
  | scalar (v : α)
  | array (vs : List α)
deriving DecidableEq

def Param.isScalar {α : Type} : Param α → Bool
  | .scalar _ => true
  | .array _ => false

/-- Python len() applied to a parameter: the length of an array, a TypeError
on a scalar (floats have no len()). -/
def pyLen {α : Type} : Param α → Except PyError ℕ
  | .scalar _ => .error .typeError
  | .array vs => .ok vs.length

def Param.arrD {α : Type} : Param α → List α
  | .scalar _ => []
  | .array vs => vs

/-- Lines 76-97 of add_measurement_noise: construction of the per-observation
efacvec and equadvec including validation.  Both vectors start at zero.  With
flags omitted both parameters must be scalars (else the ValueError of line
84) and are broadcast.  With flags present and at least one parameter
non-scalar, Python evaluates len(efac) == len(flags) and len(equad) ==
len(flags) left to right: len() of a scalar raises TypeError and the
conjunction short-circuits; if both lengths match, each flag scatters its
coefficient onto the observations carrying that flag, otherwise the
ValueError of line 97 is raised.  With flags present and both parameters
scalar neither branch runs and the vectors stay zero. -/
def buildNoiseVecs {α : Type} [Zero α] (n : ℕ) (flags : Option (List String))
    (obsFlags : List String) (efac equad : Param α) :
    Except PyError (List α × List α) :=
  match flags with
  | none =>
    match efac, equad with
    | .scalar e, .scalar q => .ok (List.replicate n e, List.replicate n q)
    | _, _ => .error .valueError
  | some fl =>
    if efac.isScalar && equad.isScalar then
      .ok (List.replicate n 0, List.replicate n 0)
    else
      match pyLen efac with
      | .error err => .error err
      | .ok le =>
        if le = fl.length then
          match pyLen equad with
          | .error err => .error err
          | .ok lq =>
            if lq = fl.length then
              .ok (scatterFlags fl efac.arrD obsFlags (List.replicate n 0),
                scatterFlags fl equad.arrD obsFlags (List.replicate n 0))
            else .error .valueError
        else .error .valueError

/-- Lines 99-103 of add_measurement_noise: dt = efacvec * errors * randn(n),
then dt += equadvec * randn(n) when tnequad else dt += efacvec * equadvec *
randn(n).  The two standard-normal vectors are passed in as z1 and z2; the
result is the offset vector in seconds. -/
def measurementOffsets {α : Type} [Field α] (n : ℕ)
    (efacvec equadvec errs z1 z2 : List α) (tnequad : Bool) : List α :=
  (List.range n).map (fun i =>
    efacvec.getD i 0 * errs.getD i 0 * z1.getD i 0 +
      (if tnequad then equadvec.getD i 0 * z2.getD i 0
       else efacvec.getD i 0 * equadvec.getD i 0 * z2.getD i 0))

/-- The process-global numpy pseudorandom generator: a stream of values and a
position; randn(k) returns the next k values and advances the position. -/
structure RNG (α : Type) where
  stream : ℕ → α
  pos : ℕ

def randnList {α : Type} (g : RNG α) (k : ℕ) : List α × RNG α :=
  ((List.range k).map (fun j => g.stream (g.pos + j)), ⟨g.stream, g.pos + k⟩)

/-- np.random.seed(seed) when a seed is given (lines 73-74 and 129-130):
replaces the global generator state by the one determined by the seed, via
the ambient seeding function seedFun. -/
def applySeed {α : Type} (seedFun : ℕ → ℕ → α) (seed : Option ℕ) (g : RNG α) : RNG α :=
  match seed with
  | none => g
  | some s => ⟨seedFun s, 0⟩

/-- The mutable state of a SimulatedPulsar as seen by the noise injectors:
TOA times in days, TOA uncertainties in seconds, the per-observation flag
values, and the cached residuals. -/
structure Pulsar (α : Type) where
  toas : List α
  errs : List α
  obsFlags : List String
  resids : List α
deriving DecidableEq

/-- Lines 69-72: equad = 10 ** log10_equad, or 0.0 when log10_equad is None;
elementwise when log10_equad is an array.  The real power function
x mapsto 10 ** x is passed in as pow10. -/
def equadParam {α : Type} [Zero α] (pow10 : α → α) : Option (Param α) → Param α
  | none => .scalar 0
  | some (.scalar x) => .scalar (pow10 x)
  | some (.array xs) => .array (xs.map pow10)

/-- add_measurement_noise (white_noise.py lines 47-106) as a state transformer
on (pulsar, generator): compute equad from log10_equad, reseed if a seed is
given, validate and build the efac/equad vectors (any exception propagates
with the pulsar untouched), then draw z1 and z2, form the offsets in seconds,
add them to the TOAs converted to days (dt.to('day'), i.e. divided by 86400),
and recompute the residuals (update_residuals, modelled by the ambient
recompute function). -/
def addMeasurementNoise {α : Type} [Field α] (pow10 : α → α)
    (seedFun : ℕ → ℕ → α) (recompute : List α → List α)
    (p : Pulsar α) (g : RNG α) (efac : Param α) (log10_equad : Option (Param α))
    (flags : Option (List String)) (seed : Option ℕ) (tnequad : Bool) :
    Except PyError Unit × Pulsar α × RNG α :=
  let equad := equadParam pow10 log10_equad
  let g1 := applySeed seedFun seed g
  let n := p.toas.length
  match buildNoiseVecs n flags p.obsFlags efac equad with
  | .error e => (.error e, p, g1)
  | .ok vecs =>
    let z1g := randnList g1 n
    let z2g := randnList z1g.2 n
    let offs := measurementOffsets n vecs.1 vecs.2 p.errs z1g.1 z2g.1 tnequad
    let newtoas := List.zipWith (fun a b => a + b / 86400) p.toas offs
    (.ok (), ⟨newtoas, p.errs, p.obsFlags, recompute newtoas⟩, z2g.2)

/-- Lines 137-153 of add_jitter: the per-bucket ecorr vector with validation.
It starts at zeros(len(t)); with flags omitted ecorr must be a scalar (else
the ValueError of line 143) and is broadcast over the B buckets; with flags
present a scalar ecorr leaves the vector at zero, and an array ecorr must
have length len(flags) (else the ValueError of line 153) and scatters onto
buckets by matching each flag against the bucket representative flags. -/
def buildEcorrVec (B : ℕ) (flags : Option (List String)) (avefs : List String)
    (ecorr : Param ℚ) : Except PyError (List ℚ) :=
  match flags with
  | none =>
    match ecorr with
    | .scalar v => .ok (List.replicate B v)
    | .array _ => .error .valueError
  | some fl =>
    match ecorr with
    | .scalar _ => .ok (List.replicate B 0)
    | .array vs =>
      if vs.length = fl.length then
        .ok (scatterFlags fl vs avefs (List.replicate B 0))
      else .error .valueError

/-- add_jitter (white_noise.py lines 109-158) as a state transformer: reseed
if a seed is given, quantize the TOAs with width coarsegrain (on an empty TOA
list the Python code raises IndexError at times[isort[0]]), validate and
build the per-bucket ecorr vector, draw one standard normal per bucket, form
the per-observation offsets U (ecorrvec pointwise-times z) in seconds, add
them to the TOAs converted to days, and recompute the residuals.  The
per-observation flag values delivered by psr.flagvals are the obsFlags field
of the pulsar state. -/
def addJitter (seedFun : ℕ → ℕ → ℚ) (recompute : List ℚ → List ℚ)
    (p : Pulsar ℚ) (g : RNG ℚ) (ecorr : Param ℚ) (flags : Option (List String))
    (coarsegrain : ℚ) (seed : Option ℕ) :
    Except PyError Unit × Pulsar ℚ × RNG ℚ :=
  let g1 := applySeed seedFun seed g
  if p.toas.isEmpty then (.error .indexError, p, g1)
  else
    let B := numBuckets p.toas coarsegrain
    let avefs := aveflagsOf p.toas p.obsFlags coarsegrain
    match buildEcorrVec B flags avefs ecorr with
    | .error e => (.error e, p, g1)
    | .ok ecorrvec =>
      let zg := randnList g1 B
      let offs := jitterOffsetsVec p.toas coarsegrain ecorrvec (fun c => zg.1.getD c 0)
      let newtoas := List.zipWith (fun a b => a + b / 86400) p.toas offs
      (.ok (), ⟨newtoas, p.errs, p.obsFlags, recompute newtoas⟩, zg.2)

/-- C4.  The add_measurement_noise offset formula: with tnequad false the
offset of observation i is EFAC_i * sigma_i * Z1_i + EFAC_i * EQUAD_i * Z2_i
(the EQUAD term scaled by EFAC); with tnequad true it is
EFAC_i * sigma_i * Z1_i + EQUAD_i * Z2_i (EQUAD unscaled); and in the scalar,
flags-omitted case the per-observation EFAC vector is the constant efac and
the EQUAD vector the constant 10 ** log10_equad, or 0 when log10_equad is
None. -/
theorem measurement_noise_formula_spec (n : ℕ)
    (efacvec equadvec errs z1 z2 : List ℝ) (i : ℕ) (hi : i < n) :
    ((measurementOffsets n efacvec equadvec errs z1 z2 false).getD i 0
        = efacvec.getD i 0 * errs.getD i 0 * z1.getD i 0
          + efacvec.getD i 0 * equadvec.getD i 0 * z2.getD i 0)
    ∧ ((measurementOffsets n efacvec equadvec errs z1 z2 true).getD i 0
        = efacvec.getD i 0 * errs.getD i 0 * z1.getD i 0
          + equadvec.getD i 0 * z2.getD i 0)
    ∧ (∀ (efac : ℝ) (l10 : Option ℝ) (obsFlags : List String),
        buildNoiseVecs n none obsFlags (Param.scalar efac)
            (equadParam (fun x => (10 : ℝ) ^ x) (l10.map Param.scalar))
          = .ok (List.replicate n efac,
              List.replicate n (match l10 with
                | none => 0
                | some l => (10 : ℝ) ^ l))) := by
  refine ⟨?_, ?_, ?_⟩
  · unfold measurementOffsets
    rw [getD_map_range _ _ i hi]
    simp
  · unfold measurementOffsets
    rw [getD_map_range _ _ i hi]
    simp
  · intro efac l10 obsFlags
    cases l10 with
    | none => rfl
    | some l => rfl

theorem measurement_noise_formula_spec_witness :
    (measurementOffsets 1 [(2 : ℝ)] [3] [5] [7] [11] false).getD 0 0
      = ([(2 : ℝ)]).getD 0 0 * ([(5 : ℝ)]).getD 0 0 * ([(7 : ℝ)]).getD 0 0
        + ([(2 : ℝ)]).getD 0 0 * ([(3 : ℝ)]).getD 0 0 * ([(11 : ℝ)]).getD 0 0 :=
  (measurement_noise_formula_spec 1 [2] [3] [5] [7] [11] 0 (by decide)).1

/-- C5 counterexample.  flags is provided, efac is an array whose length
matches len(flags), and log10_equad is omitted so equad is the scalar 0.0:
the claim says no configuration beyond the two stated rules is rejected, but
the code evaluates len(equad) on a scalar float and raises a TypeError. -/
theorem noise_validation_counterexample :
    buildNoiseVecs 1 (some ["A"]) ["A"] (Param.array [(1 : ℚ)]) (Param.scalar 0)
      = .error .typeError := rfl

/-- C5 (amended).  Complete rejection behaviour of the validation code.  With
flags omitted, any non-scalar efac or equad raises the ValueError that the
spec calls ConfigurationError, and two scalars are broadcast.  With flags
provided: two scalars are silently accepted (vectors stay zero); efac scalar
with equad an array raises TypeError (len of a scalar); efac an array of
length len(flags) with equad scalar raises TypeError; efac an array of other
length raises ValueError regardless of equad (short-circuit); two arrays
raise ValueError unless both lengths equal len(flags), in which case they are
scattered.  add_jitter applies the clean scalar-vs-array rule to ecorr: a
non-scalar ecorr without flags raises ValueError, an array with flags raises
ValueError iff its length differs from len(flags), and a scalar is always
accepted. -/
theorem noise_validation_spec (n B : ℕ) (obsFlags avefs fl : List String)
    (e q v : ℚ) (es qs vs : List ℚ) :
    (buildNoiseVecs n none obsFlags (Param.scalar e) (Param.array qs)
        = .error .valueError)
    ∧ (buildNoiseVecs n none obsFlags (Param.array es) (Param.scalar q)
        = .error .valueError)
    ∧ (buildNoiseVecs n none obsFlags (Param.array es) (Param.array qs)
        = .error .valueError)
    ∧ (buildNoiseVecs n none obsFlags (Param.scalar e) (Param.scalar q)
        = .ok (List.replicate n e, List.replicate n q))
    ∧ (buildNoiseVecs n (some fl) obsFlags (Param.scalar e) (Param.scalar q)
        = .ok (List.replicate n 0, List.replicate n 0))
    ∧ (buildNoiseVecs n (some fl) obsFlags (Param.scalar e) (Param.array qs)
        = .error .typeError)
    ∧ (es.length = fl.length →
        buildNoiseVecs n (some fl) obsFlags (Param.array es) (Param.scalar q)
          = .error .typeError)
    ∧ (es.length ≠ fl.length →
        buildNoiseVecs n (some fl) obsFlags (Param.array es) (Param.scalar q)
          = .error .valueError)
    ∧ (es.length ≠ fl.length →
        buildNoiseVecs n (some fl) obsFlags (Param.array es) (Param.array qs)
          = .error .valueError)
    ∧ (es.length = fl.length → qs.length ≠ fl.length →
        buildNoiseVecs n (some fl) obsFlags (Param.array es) (Param.array qs)
          = .error .valueError)
    ∧ (es.length = fl.length → qs.length = fl.length →
        buildNoiseVecs n (some fl) obsFlags (Param.array es) (Param.array qs)
          = .ok (scatterFlags fl es obsFlags (List.replicate n 0),
              scatterFlags fl qs obsFlags (List.replicate n 0)))
    ∧ (buildEcorrVec B none avefs (Param.scalar v) = .ok (List.replicate B v))
    ∧ (buildEcorrVec B none avefs (Param.array vs) = .error .valueError)
    ∧ (buildEcorrVec B (some fl) avefs (Param.scalar v) = .ok (List.replicate B 0))
    ∧ (vs.length ≠ fl.length →
        buildEcorrVec B (some fl) avefs (Param.array vs) = .error .valueError)
    ∧ (vs.length = fl.length →
        buildEcorrVec B (some fl) avefs (Param.array vs)
          = .ok (scatterFlags fl vs avefs (List.replicate B 0))) := by
  refine ⟨rfl, rfl, rfl, rfl, rfl, rfl, ?_, ?_, ?_, ?_, ?_, rfl, rfl, rfl, ?_, ?_⟩
  · intro h
    simp [buildNoiseVecs, pyLen, Param.isScalar, h]
  · intro h
    simp [buildNoiseVecs, pyLen, Param.isScalar, h]
  · intro h
    simp [buildNoiseVecs, pyLen, Param.isScalar, h]
  · intro h1 h2
    simp [buildNoiseVecs, pyLen, Param.isScalar, Param.arrD, h1, h2]
  · intro h1 h2
    simp [buildNoiseVecs, pyLen, Param.isScalar, Param.arrD, h1, h2]
  · intro h
    simp [buildEcorrVec, h]
  · intro h
    simp [buildEcorrVec, h]

theorem noise_validation_spec_witness :
    buildNoiseVecs 2 (some ["A", "B"]) ["A", "B"] (Param.array [(1 : ℚ), 2])
        (Param.scalar 0) = .error .typeError :=
  (noise_validation_spec 2 1 ["A", "B"] [] ["A", "B"] 1 0 0 [1, 2] [] []).2.2.2.2.2.2.1
    (by decide)

theorem getD_replicate_self {α : Type} (k i : ℕ) (a : α) :
    (List.replicate k a).getD i a = a := by
  rw [List.getD_eq_getElem?_getD]
  exact List.getElem?_getD_replicate_default_eq _ _ _

theorem zipWith_adddiv_zero {α : Type} [Field α] (l : List α) :
    List.zipWith (fun a b => a + b / 86400) l (List.replicate l.length 0) = l := by
  induction l with
  | nil => rfl
  | cons a as ih => simp [List.replicate_succ, ih]

theorem measurementOffsets_zero {α : Type} [Field α] (n : ℕ)
    (errs z1 z2 : List α) (tnequad : Bool) :
    measurementOffsets n (List.replicate n 0) (List.replicate n 0) errs z1 z2 tnequad
      = List.replicate n 0 := by
  unfold measurementOffsets
  simp [getD_replicate_self]

theorem jitterOffsetsVec_zero (times : List ℚ) (cg : ℚ) (z : ℕ → ℚ) :
    jitterOffsetsVec times cg (List.replicate (numBuckets times cg) 0) z
      = List.replicate times.length 0 := by
  unfold jitterOffsetsVec jitterOffset
  simp [getD_replicate_self]

/-- C6.  With flags a non-None list while efac and equad are both scalars
(log10_equad None or a scalar), add_measurement_noise raises no validation
error, the per-observation efac/equad vectors stay all zero, every injected
offset is zero and the TOAs are unchanged; likewise add_jitter with non-None
flags and a scalar ecorr silently injects zero offsets and leaves the TOAs
unchanged. -/
theorem silent_zero_noise_spec {α : Type} [Field α] (pow10 : α → α)
    (seedFun : ℕ → ℕ → α) (recompute : List α → List α)
    (p : Pulsar α) (g : RNG α) (e : α) (x : Option α) (fl : List String)
    (seed : Option ℕ) (tnequad : Bool) :
    (buildNoiseVecs p.toas.length (some fl) p.obsFlags (Param.scalar e)
        (equadParam pow10 (x.map Param.scalar))
      = .ok (List.replicate p.toas.length 0, List.replicate p.toas.length 0))
    ∧ (∀ z1 z2 : List α,
        measurementOffsets p.toas.length (List.replicate p.toas.length 0)
            (List.replicate p.toas.length 0) p.errs z1 z2 tnequad
          = List.replicate p.toas.length 0)
    ∧ ((addMeasurementNoise pow10 seedFun recompute p g (Param.scalar e)
        (x.map Param.scalar) (some fl) seed tnequad).1 = .ok ())
    ∧ ((addMeasurementNoise pow10 seedFun recompute p g (Param.scalar e)
        (x.map Param.scalar) (some fl) seed tnequad).2.1.toas = p.toas)
    ∧ (∀ (seedFun2 : ℕ → ℕ → ℚ) (recompute2 : List ℚ → List ℚ)
        (q : Pulsar ℚ) (g2 : RNG ℚ) (v : ℚ) (fl2 : List String)
        (cg : ℚ) (seed2 : Option ℕ), q.toas ≠ [] →
        buildEcorrVec (numBuckets q.toas cg) (some fl2)
            (aveflagsOf q.toas q.obsFlags cg) (Param.scalar v)
          = .ok (List.replicate (numBuckets q.toas cg) 0)
        ∧ (addJitter seedFun2 recompute2 q g2 (Param.scalar v) (some fl2) cg seed2).1
          = .ok ()
        ∧ (addJitter seedFun2 recompute2 q g2 (Param.scalar v) (some fl2) cg
            seed2).2.1.toas = q.toas) := by
  have hbv : buildNoiseVecs p.toas.length (some fl) p.obsFlags (Param.scalar e)
      (equadParam pow10 (x.map Param.scalar))
      = .ok (List.replicate p.toas.length 0, List.replicate p.toas.length 0) := by
    cases x with
    | none => rfl
    | some y => rfl
  refine ⟨hbv, fun z1 z2 => measurementOffsets_zero _ _ _ _ _, ?_, ?_, ?_⟩
  · simp [addMeasurementNoise, hbv]
  · simp only [addMeasurementNoise, hbv]
    simp [measurementOffsets_zero, zipWith_adddiv_zero]
  · intro seedFun2 recompute2 q g2 v fl2 cg seed2 hq
    have hbe : buildEcorrVec (numBuckets q.toas cg) (some fl2)
        (aveflagsOf q.toas q.obsFlags cg) (Param.scalar v)
        = .ok (List.replicate (numBuckets q.toas cg) 0) := rfl
    have hemp : q.toas.isEmpty = false := by
      cases hqt : q.toas with
      | nil => exact absurd hqt hq
      | cons a as => rfl
    refine ⟨hbe, ?_, ?_⟩
    · simp [addJitter, hemp, hbe]
    · simp only [addJitter, hemp, hbe]
      simp [jitterOffsetsVec_zero, zipWith_adddiv_zero]

theorem silent_zero_noise_spec_witness :
    (addJitter (fun _ _ => 0) id ⟨[1, 2], [1, 1], ["A", "A"], [0, 0]⟩ ⟨fun _ => 0, 0⟩
        (Param.scalar 3) (some ["A"]) 1 none).2.1.toas = [1, 2] :=
  ((silent_zero_noise_spec (α := ℚ) id (fun _ _ => 0) id
      ⟨[1, 2], [1, 1], ["A", "A"], [0, 0]⟩ ⟨fun _ => 0, 0⟩ 1 none ["A"] none false).2.2.2.2
    (fun _ _ => 0) id ⟨[1, 2], [1, 1], ["A", "A"], [0, 0]⟩ ⟨fun _ => 0, 0⟩ 3 ["A"] 1 none
    (by decide)).2.2

/-- C7.  Whenever add_measurement_noise or add_jitter ends in an exception,
the exception arises before any random draw and before any mutation of the
pulsar: the pulsar state (TOAs and residuals included) is exactly the input
state and the generator state is exactly the post-seeding state, no draw
having been consumed from it. -/
theorem failfast_spec {α : Type} [Field α] (pow10 : α → α)
    (seedFun : ℕ → ℕ → α) (recompute : List α → List α)
    (p : Pulsar α) (g : RNG α) (efac : Param α) (l10 : Option (Param α))
    (flags : Option (List String)) (seed : Option ℕ) (tnequad : Bool)
    (err : PyError) :
    ((addMeasurementNoise pow10 seedFun recompute p g efac l10 flags seed
        tnequad).1 = .error err →
      (addMeasurementNoise pow10 seedFun recompute p g efac l10 flags seed
        tnequad).2.1 = p
      ∧ (addMeasurementNoise pow10 seedFun recompute p g efac l10 flags seed
          tnequad).2.2 = applySeed seedFun seed g)
    ∧ (∀ (seedFun2 : ℕ → ℕ → ℚ) (recompute2 : List ℚ → List ℚ)
        (q : Pulsar ℚ) (g2 : RNG ℚ) (ecorr : Param ℚ)
        (flags2 : Option (List String)) (cg : ℚ) (seed2 : Option ℕ)
        (err2 : PyError),
        (addJitter seedFun2 recompute2 q g2 ecorr flags2 cg seed2).1
            = .error err2 →
          (addJitter seedFun2 recompute2 q g2 ecorr flags2 cg seed2).2.1 = q
          ∧ (addJitter seedFun2 recompute2 q g2 ecorr flags2 cg seed2).2.2
            = applySeed seedFun2 seed2 g2) := by
  constructor
  · intro herr
    rcases hbv : buildNoiseVecs p.toas.length flags p.obsFlags efac
        (equadParam pow10 l10) with e' | vecs
    · constructor
      · simp [addMeasurementNoise, hbv]
      · simp [addMeasurementNoise, hbv]
    · exfalso
      simp [addMeasurementNoise, hbv] at herr
  · intro seedFun2 recompute2 q g2 ecorr flags2 cg seed2 err2 herr
    by_cases hemp : q.toas.isEmpty
    · constructor
      · simp [addJitter, hemp]
      · simp [addJitter, hemp]
    · rcases hbe : buildEcorrVec (numBuckets q.toas cg) flags2
          (aveflagsOf q.toas q.obsFlags cg) ecorr with e' | ev
      · constructor
        · simp [addJitter, hemp, hbe]
        · simp [addJitter, hemp, hbe]
      · exfalso
        simp [addJitter, hemp, hbe] at herr

theorem failfast_spec_witness :
    (addMeasurementNoise (α := ℚ) id (fun _ _ => 0) id
        ⟨[1], [1], ["A"], [0]⟩ ⟨fun _ => 0, 0⟩ (Param.array [1, 2]) none none
        none false).2.1 = ⟨[1], [1], ["A"], [0]⟩ :=
  ((failfast_spec (α := ℚ) id (fun _ _ => 0) id ⟨[1], [1], ["A"], [0]⟩
      ⟨fun _ => 0, 0⟩ (Param.array [1, 2]) none none none false
      PyError.valueError).1 rfl).1

/-- C8.  With a non-None seed, add_measurement_noise reseeds the generator
before any draw, so its entire output (result, mutated pulsar, generator
state) is independent of the incoming generator state: two calls with the
same seed and identical inputs produce identical timestamp offsets. -/
theorem seeded_determinism_spec {α : Type} [Field α] (pow10 : α → α)
    (seedFun : ℕ → ℕ → α) (recompute : List α → List α)
    (p : Pulsar α) (g g2 : RNG α) (efac : Param α) (l10 : Option (Param α))
    (flags : Option (List String)) (s : ℕ) (tnequad : Bool) :
    addMeasurementNoise pow10 seedFun recompute p g efac l10 flags (some s) tnequad
      = addMeasurementNoise pow10 seedFun recompute p g2 efac l10 flags (some s)
          tnequad := by
  simp [addMeasurementNoise, applySeed]

/-- The location parameters of a loaded timing model, as touched by
load_pulsar: each of RAJ, DECJ, ELONG, ELAT is either present with a value or
absent (so that reading model.X.value raises AttributeError). -/
structure TimingModelLoc where
  raj : Option ℚ
  decj : Option ℚ
  elong : Option ℚ
  elat : Option ℚ
deriving DecidableEq

inductive PulsarLoc where
  | equatorial (ra dec : ℚ)
  | ecliptic (lon lat : ℚ)
deriving DecidableEq

/-- The try/except/else location lookup of load_pulsar (pta_replicator/sim.py
lines 85-90, identical in src/simulate.py lines 84-89).  The try body reads
model.RAJ.value then model.DECJ.value; if either read raises AttributeError
the except clause reads ELONG and ELAT (an absent one raising AttributeError
out of the handler); if the try body succeeds, the else clause runs and
raises AttributeError with the no-pulsar-location message, discarding the
equatorial loc just built. -/
def locOf (m : TimingModelLoc) : Except PyError PulsarLoc :=
  match m.raj, m.decj with
  | some _, some _ => .error .noLocError
  | _, _ =>
    match m.elong, m.elat with
    | some lo, some la => .ok (.ecliptic lo la)
    | _, _ => .error .attrError

/-- C10.  For every timing model defining both RAJ and DECJ, load_pulsar
raises the no-pulsar-location AttributeError (the raise sits in the else
clause of the try, which runs exactly when the try body succeeds); a pulsar
is only loaded when RAJ or DECJ is missing and both ELONG and ELAT are
present, yielding the ecliptic location. -/
theorem load_pulsar_loc_spec (m : TimingModelLoc) :
    (∀ ra dec, m.raj = some ra → m.decj = some dec →
      locOf m = .error .noLocError)
    ∧ (∀ loc, locOf m = .ok loc →
        (m.raj = none ∨ m.decj = none)
        ∧ ∃ lo la, m.elong = some lo ∧ m.elat = some la
          ∧ loc = .ecliptic lo la) := by
  constructor
  · intro ra dec h1 h2
    unfold locOf
    rw [h1, h2]
  · intro loc hloc
    unfold locOf at hloc
    rcases hr : m.raj with _ | ra <;> rcases hd : m.decj with _ | dec <;>
      rw [hr, hd] at hloc
    case none.none | none.some | some.none =>
      rcases he : m.elong with _ | lo <;> rcases ha : m.elat with _ | la <;>
        rw [he, ha] at hloc <;> simp at hloc
      all_goals exact ⟨by simp [hr, hd], lo, la, rfl, rfl, hloc.symm⟩
    case some.some => simp at hloc

theorem load_pulsar_loc_spec_witness :
    locOf ⟨some 1, some 2, none, none⟩ = .error .noLocError :=
  (load_pulsar_loc_spec ⟨some 1, some 2, none, none⟩).1 1 2 rfl rfl

end PTA
